import Mathlib

/-!
# Verification of the VMA419 / DMD419 LED-matrix display driver

Shallow embedding of the driver found in `src/vma419.c`, `src/vma419.h`,
`src/VMA419_Font.h`, `src/main.c` and `src/Lib/DMD419/DMD419.cpp`, together
with proofs settling the specification claims about pixel addressing, the
compositing modes, the scan engine, font rendering and the marquee engine.

Machine integers are modelled as `Nat` with explicit truncation (`u16` for
the C `uint16_t` arithmetic, `% 256` for byte stores).  Frame buffers are
`List Nat` whose entries are bytes (`< 256`).  Signed C quantities
(`int16_t` coordinates, `int` offsets) are modelled as `Int`.
-/

namespace VMA419

/-- Truncation to 16 bits: the result of every `uint16_t` arithmetic
operation on the AVR target (where `int` is 16 bits wide). -/
def u16 (n : Nat) : Nat := n % 65536

/-- The display state of `VMA419_Display` (`src/vma419.h`, lines 154-169).
The pin-configuration substructure is pure hardware I/O (port addresses)
and carries no display state, so it is not modelled. -/
structure Display where
  panels_wide : Nat
  panels_high : Nat
  total_width_pixels : Nat
  total_height_pixels : Nat
  frame_buffer : List Nat
  frame_buffer_size : Nat
  scan_cycle : Nat
deriving DecidableEq, Repr

/-- Well-formedness of a display, exactly the state established by
`vma419_init` (`src/vma419.c`, lines 95-134): `panels_wide`/`panels_high`
are nonzero `uint8_t` values, the derived dimension fields follow the init
formulas, and the frame buffer is an allocated byte array of the computed
size. -/
def Display.WF (d : Display) : Prop :=
  0 < d.panels_wide ∧ d.panels_wide < 256 ∧
  0 < d.panels_high ∧ d.panels_high < 256 ∧
  d.total_width_pixels = d.panels_wide * 32 ∧
  d.total_height_pixels = d.panels_high * 16 ∧
  d.frame_buffer_size = u16 (d.panels_wide * d.panels_high * 64) ∧
  d.frame_buffer.length = d.frame_buffer_size ∧
  ∀ b ∈ d.frame_buffer, b < 256

/-- `vma419_pixel_lookup_table` (`src/vma419.h`, lines 71-80): MSB-first
bit masks. -/
def vma419_pixel_lookup_table : List Nat := [128, 64, 32, 16, 8, 4, 2, 1]

/-- `vma419_remap_row` (`src/vma419.c`, lines 177-199): per-4-row-group
permutation 0↦3, 1↦0, 2↦1, 3↦2, with the source's boundary check that
falls back to the unmapped row when the permuted row is not below 16. -/
def vma419_remap_row (logical_y : Nat) : Nat :=
  let group := logical_y / 4
  let offset := logical_y % 4
  let remapped_offset :=
    match offset with
    | 0 => 3
    | 1 => 0
    | 2 => 1
    | 3 => 2
    | _ => offset
  let physical_y := group * 4 + remapped_offset
  if 16 ≤ physical_y then logical_y else physical_y

/-- The pixel-address computation shared verbatim by `vma419_set_pixel`
(`src/vma419.c`, lines 216-229) and `vma419_write_pixel` (lines 258-271):
row remap, panel tiling, flattened column, byte index and bit mask, in
`uint16_t` arithmetic. -/
def vma419_pixel_addr (pw ph x y : Nat) : Nat × Nat :=
  let physical_y := vma419_remap_row y
  let panel := u16 (x / 32 + u16 (pw * (physical_y / 16)))
  let bX := u16 (x % 32 + u16 (panel * 32))
  let bY := physical_y % 16
  let displays_total := u16 (pw * ph)
  let byte_index := u16 (bX / 8 + u16 (bY * u16 (displays_total * 4)))
  let bit_mask := vma419_pixel_lookup_table.getD (bX % 8) 0
  (byte_index, bit_mask)

/-- `vma419_clear` (`src/vma419.c`, lines 159-165): `memset` of the frame
buffer to `0x00`. -/
def vma419_clear (d : Display) : Display :=
  { d with frame_buffer := List.replicate d.frame_buffer.length 0 }

/-- `vma419_set_pixel` (`src/vma419.c`, lines 211-239). -/
def vma419_set_pixel (d : Display) (x y color : Nat) : Display :=
  if d.total_width_pixels ≤ x ∨ d.total_height_pixels ≤ y then d
  else
    let addr := vma419_pixel_addr d.panels_wide d.panels_high x y
    let byte_index := addr.1
    let bit_mask := addr.2
    if byte_index < d.frame_buffer_size then
      let old := d.frame_buffer.getD byte_index 0
      if color ≠ 0 then
        { d with frame_buffer := d.frame_buffer.set byte_index (old ||| bit_mask) }
      else
        { d with frame_buffer := d.frame_buffer.set byte_index (old &&& (255 ^^^ bit_mask)) }
    else d

/-- `vma419_write_pixel` (`src/vma419.c`, lines 253-320): compositing-mode
pixel write.  The `switch` has arms for modes 0-4 (NORMAL, INVERSE,
TOGGLE, OR, NOR) and no `default`, so any other mode falls through with
no write. -/
def vma419_write_pixel (d : Display) (x y graphics_mode pixel : Nat) : Display :=
  if d.total_width_pixels ≤ x ∨ d.total_height_pixels ≤ y then d
  else
    let addr := vma419_pixel_addr d.panels_wide d.panels_high x y
    let ram_pointer := addr.1
    let lookup := addr.2
    if d.frame_buffer_size ≤ ram_pointer then d
    else
      let b := d.frame_buffer.getD ram_pointer 0
      match graphics_mode with
      | 0 =>
          if pixel = 1 then
            { d with frame_buffer := d.frame_buffer.set ram_pointer (b ||| lookup) }
          else
            { d with frame_buffer := d.frame_buffer.set ram_pointer (b &&& (255 ^^^ lookup)) }
      | 1 =>
          if pixel = 0 then
            { d with frame_buffer := d.frame_buffer.set ram_pointer (b ||| lookup) }
          else
            { d with frame_buffer := d.frame_buffer.set ram_pointer (b &&& (255 ^^^ lookup)) }
      | 2 =>
          if pixel = 1 then
            if b &&& lookup ≠ 0 then
              { d with frame_buffer := d.frame_buffer.set ram_pointer (b &&& (255 ^^^ lookup)) }
            else
              { d with frame_buffer := d.frame_buffer.set ram_pointer (b ||| lookup) }
          else d
      | 3 =>
          if pixel = 1 then
            { d with frame_buffer := d.frame_buffer.set ram_pointer (b ||| lookup) }
          else d
      | 4 =>
          if pixel = 1 ∧ b &&& lookup ≠ 0 then
            { d with frame_buffer := d.frame_buffer.set ram_pointer (b &&& (255 ^^^ lookup)) }
          else d
      | _ => d

/-- The per-panel 16-byte SPI interleave of `vma419_scan_display_quarter`
(`src/vma419.c`, lines 390-411): each panel emits its four byte lanes in
the fixed row3/row2/row1/row0 interleave, then `offset` moves by 4. -/
def scanPanelBytes (fb : List Nat) (offset row1 row2 row3 : Nat) : List Nat :=
  [fb.getD (offset + 0 + row3) 0, fb.getD (offset + 0 + row2) 0,
   fb.getD (offset + 1 + row3) 0, fb.getD (offset + 1 + row2) 0,
   fb.getD (offset + 0 + row1) 0, fb.getD (offset + 0) 0,
   fb.getD (offset + 1 + row1) 0, fb.getD (offset + 1) 0,
   fb.getD (offset + 2 + row3) 0, fb.getD (offset + 2 + row2) 0,
   fb.getD (offset + 3 + row3) 0, fb.getD (offset + 3 + row2) 0,
   fb.getD (offset + 2 + row1) 0, fb.getD (offset + 2) 0,
   fb.getD (offset + 3 + row1) 0, fb.getD (offset + 3) 0]

/-- The panel loop of `vma419_scan_display_quarter`: `panels` panels,
starting at byte offset `offset`, each advancing `offset` by 4. -/
def scanPanelLoop (fb : List Nat) (offset row1 row2 row3 : Nat) : Nat → List Nat
  | 0 => []
  | n + 1 =>
      scanPanelBytes fb offset row1 row2 row3 ++
        scanPanelLoop fb (offset + 4) row1 row2 row3 n

/-- `vma419_scan_display_quarter` (`src/vma419.c`, lines 368-420).  The
function drives OE/A/B/latch pins and streams frame-buffer bytes out over
SPI; it writes no field of `*disp`, so the display state is returned
unchanged alongside the emitted SPI byte stream. -/
def vma419_scan_display_quarter (d : Display) : Display × List Nat :=
  let displays_total := u16 (d.panels_wide * d.panels_high)
  let rowsize := u16 (displays_total * 4)
  let offset := u16 (rowsize * d.scan_cycle)
  let row1 := u16 (displays_total * 16)
  let row2 := u16 (displays_total * 32)
  let row3 := u16 (displays_total * 48)
  (d, scanPanelLoop d.frame_buffer offset row1 row2 row3 displays_total)

/-- The display-refresh block of the main loop (`src/main.c`, lines
439-442): for `cycle = 0,1,2,3`, assign `scan_cycle := cycle` and call
`vma419_scan_display_quarter`.  Returns the final display state together
with the list of `scan_cycle` values in force during the four scan
calls. -/
def main_refresh (d : Display) : Display × List Nat :=
  [0, 1, 2, 3].foldl
    (fun acc cycle =>
      let d1 := { acc.1 with scan_cycle := cycle }
      let d2 := (vma419_scan_display_quarter d1).1
      (d2, acc.2 ++ [d1.scan_cycle]))
    (d, [])

/-- A freshly initialised 1×1 display (32×16, 64-byte cleared buffer), as
produced by `vma419_init(&d, pins, 1, 1)`. -/
def display1x1 : Display :=
  { panels_wide := 1, panels_high := 1,
    total_width_pixels := 32, total_height_pixels := 16,
    frame_buffer := List.replicate 64 0, frame_buffer_size := 64,
    scan_cycle := 0 }

/-- A freshly initialised 1×2 display (32×32, 128-byte cleared buffer). -/
def display1x2 : Display :=
  { panels_wide := 1, panels_high := 2,
    total_width_pixels := 32, total_height_pixels := 32,
    frame_buffer := List.replicate 128 0, frame_buffer_size := 128,
    scan_cycle := 0 }

/-! ## Specification-side definitions

These definitions transcribe the specification's own wording so that the
source-derived definitions above can be compared against them. -/

/-- The specification's unconditional per-4-row-group permutation
`{0↦3, 1↦0, 2↦1, 3↦2}` applied per group of 4 rows (spec §4.1), with no
boundary fallback. -/
def remap_row_spec (y : Nat) : Nat :=
  let remapped_offset :=
    match y % 4 with
    | 0 => 3
    | 1 => 0
    | 2 => 1
    | _ => 2
  (y / 4) * 4 + remapped_offset

/-- The pixel-address formula exactly as the claim states it: remap `y`
through the unconditional permutation, then
`panel = x/32 + panels_wide*(y/16)`, `x' = x%32 + panel*32`,
`byte_offset = x'/8 + (y%16)*(panels_wide*panels_high*4)`,
`bit_mask = table[x' % 8]`, in exact (unbounded) arithmetic. -/
def pixel_addr_spec (pw ph x y : Nat) : Nat × Nat :=
  let ry := remap_row_spec y
  let panel := x / 32 + pw * (ry / 16)
  let xflat := x % 32 + panel * 32
  (xflat / 8 + (ry % 16) * (pw * ph * 4),
   vma419_pixel_lookup_table.getD (xflat % 8) 0)

/-- The amended pixel-address formula: identical to `pixel_addr_spec`
except that the row permutation falls back to the identity whenever the
permuted row is not below 16 (which happens exactly for `y ≥ 16`),
matching the boundary check in `vma419_remap_row`. -/
def pixel_addr_amended (pw ph x y : Nat) : Nat × Nat :=
  let ry := if remap_row_spec y < 16 then remap_row_spec y else y
  let panel := x / 32 + pw * (ry / 16)
  let xflat := x % 32 + panel * 32
  (xflat / 8 + (ry % 16) * (pw * ph * 4),
   vma419_pixel_lookup_table.getD (xflat % 8) 0)

/-- The five compositing-mode semantics exactly as the claim states them,
as a function of the mode, the written value and the current bit:
NORMAL `bit := value`, INVERSE `bit := !value`, TOGGLE flips when value
is true, OR never clears, NOR only clears a set bit. -/
def writePixelModeSpec (mode : Nat) (value old : Bool) : Bool :=
  if mode = 0 then value
  else if mode = 1 then !value
  else if mode = 2 then (if value then !old else old)
  else if mode = 3 then (old || value)
  else (old && !value)

/-! ## Address-computation lemmas -/

theorem u16_eq (n : Nat) (h : n < 65536) : u16 n = n := Nat.mod_eq_of_lt h

/-- The source's row remap equals the spec permutation with a fallback to
the identity when the permuted row is not below 16. -/
theorem remap_row_eq (y : Nat) :
    vma419_remap_row y = if remap_row_spec y < 16 then remap_row_spec y else y := by
  have h4 : y % 4 = 0 ∨ y % 4 = 1 ∨ y % 4 = 2 ∨ y % 4 = 3 := by omega
  unfold vma419_remap_row remap_row_spec
  rcases h4 with h | h | h | h <;> simp only [h] <;> split_ifs <;> omega

/-- In the no-overflow regime (at most 1023 panels in total), the
`uint16_t` address arithmetic of `vma419_pixel_addr` never wraps: it
agrees with the exact amended formula, and the byte index is strictly
below the frame-buffer size `panels_wide * panels_high * 64`. -/
theorem vma419_pixel_addr_eq (pw ph x y : Nat) (hpw : 0 < pw) (hph : 0 < ph)
    (hDT : pw * ph ≤ 1023) (hx : x < pw * 32) (hy : y < ph * 16) :
    vma419_pixel_addr pw ph x y = pixel_addr_amended pw ph x y ∧
    (vma419_pixel_addr pw ph x y).1 < pw * ph * 64 := by
  have hr := remap_row_eq y
  set ry := if remap_row_spec y < 16 then remap_row_spec y else y with hry_def
  have hry : ry < ph * 16 := by
    rw [hry_def]; split
    · omega
    · omega
  have hq : ry / 16 < ph := by omega
  have hP : pw * (ry / 16) + pw ≤ pw * ph := by
    have h2 := Nat.mul_le_mul_left pw (by omega : ry / 16 + 1 ≤ ph)
    simpa [Nat.mul_add] using h2
  have hx32 : x / 32 < pw := by omega
  have hpanel : x / 32 + pw * (ry / 16) < pw * ph := by omega
  set P := pw * (ry / 16) with hP_def
  set panel := x / 32 + P with hpanel_def
  set DT := pw * ph with hDT_def
  have e1 : u16 P = P := u16_eq P (by omega)
  have e2 : u16 panel = panel := u16_eq panel (by omega)
  have hp32 : (panel + 1) * 32 ≤ DT * 32 :=
    Nat.mul_le_mul_right 32 (by omega : panel + 1 ≤ DT)
  have e3 : u16 (panel * 32) = panel * 32 := u16_eq _ (by omega)
  set bX := x % 32 + panel * 32 with hbX_def
  have hbX : bX < 32 * DT := by omega
  have e4 : u16 bX = bX := u16_eq _ (by omega)
  have e5 : u16 DT = DT := u16_eq _ (by omega)
  have e6 : u16 (DT * 4) = DT * 4 := u16_eq _ (by omega)
  have hbY : (ry % 16) * (DT * 4) ≤ 15 * (DT * 4) :=
    Nat.mul_le_mul_right (DT * 4) (by omega)
  set B := (ry % 16) * (DT * 4) with hB_def
  have hB : B ≤ 60 * DT := by omega
  have e7 : u16 B = B := u16_eq _ (by omega)
  have hbyte : bX / 8 + B < DT * 64 := by omega
  have e8 : u16 (bX / 8 + B) = bX / 8 + B := u16_eq _ (by omega)
  constructor
  · show vma419_pixel_addr pw ph x y = pixel_addr_amended pw ph x y
    simp only [vma419_pixel_addr, pixel_addr_amended]
    rw [hr, ← hry_def, ← hP_def, e1, ← hpanel_def, e2, e3, ← hbX_def, e4,
      ← hDT_def, e5, e6, ← hB_def, e7, e8]
  · show (vma419_pixel_addr pw ph x y).1 < DT * 64
    simp only [vma419_pixel_addr]
    rw [hr, ← hP_def, e1, ← hpanel_def, e2, e3, ← hbX_def, e4,
      ← hDT_def, e5, e6, ← hB_def, e7, e8]
    exact hbyte

/-! ## C1 — scan-phase advancement -/

/-- C1, counterexample: one successful call to
`vma419_scan_display_quarter` on a freshly initialised 1×1 display with
`scan_cycle = 0` leaves `scan_cycle` at 0, not at `(0 + 1) % 4 = 1` as
the claim requires. -/
theorem C1_counterexample :
    display1x1.scan_cycle = 0 ∧
    (vma419_scan_display_quarter display1x1).1.scan_cycle = 0 ∧
    (vma419_scan_display_quarter display1x1).1.scan_cycle ≠
      (display1x1.scan_cycle + 1) % 4 := by
  refine ⟨rfl, rfl, ?_⟩
  decide

/-- C1, amended: `vma419_scan_display_quarter` leaves the whole display
state — in particular `scan_cycle` — unchanged; the scan phase is
advanced by the caller.  The main loop's refresh block assigns
`scan_cycle = 0,1,2,3` before each of its four consecutive scan calls, so
those calls run at phases 0, 1, 2, 3 exactly once each, in order, ending
with `scan_cycle = 3`. -/
theorem C1_amended (d : Display) :
    (vma419_scan_display_quarter d).1 = d ∧
    (main_refresh d).2 = [0, 1, 2, 3] ∧
    (main_refresh d).1 = { d with scan_cycle := 3 } := by
  refine ⟨rfl, ?_, ?_⟩ <;>
    simp [main_refresh, vma419_scan_display_quarter]

/-! ## C3 — the pixel-address computation -/

/-- The effect of `vma419_set_pixel` on the frame buffer once the target
address is known: set or clear the addressed bit of the addressed byte. -/
def set_pixel_target_fb (fb : List Nat) (a : Nat × Nat) (color : Nat) : List Nat :=
  if color ≠ 0 then fb.set a.1 (fb.getD a.1 0 ||| a.2)
  else fb.set a.1 (fb.getD a.1 0 &&& (255 ^^^ a.2))

/-- The display state `vma419_set_pixel` should produce when the write
lands on address `a`: only the addressed bit of the frame buffer moves. -/
def set_pixel_target (d : Display) (a : Nat × Nat) (color : Nat) : Display :=
  { d with frame_buffer := set_pixel_target_fb d.frame_buffer a color }

/-- Well-formedness of the concrete 1×1 display. -/
theorem display1x1_WF : display1x1.WF := by
  refine ⟨by decide, by decide, by decide, by decide, by decide, by decide,
    by decide, by simp [display1x1, u16], ?_⟩
  intro b hb
  have := List.eq_of_mem_replicate hb
  omega

/-- Well-formedness of the concrete 1×2 display. -/
theorem display1x2_WF : display1x2.WF := by
  refine ⟨by decide, by decide, by decide, by decide, by decide, by decide,
    by decide, by simp [display1x2, u16], ?_⟩
  intro b hb
  have := List.eq_of_mem_replicate hb
  omega

/-- C3, counterexample: on a 1×2 topology the in-bounds pixel (0, 16)
is NOT addressed through the claimed unconditional row permutation
(which would send row 16 to row 19 and the write to byte 28): the
source's `vma419_remap_row` boundary check leaves row 16 unmapped, so
the write lands on byte 4 instead, and byte 28 stays clear. -/
theorem C3_counterexample :
    16 < display1x2.total_height_pixels ∧
    pixel_addr_spec 1 2 0 16 = (28, 128) ∧
    vma419_pixel_addr 1 2 0 16 = (4, 128) ∧
    vma419_pixel_addr 1 2 0 16 ≠ pixel_addr_spec 1 2 0 16 ∧
    (vma419_set_pixel display1x2 0 16 1).frame_buffer.getD 28 0 = 0 ∧
    (vma419_set_pixel display1x2 0 16 1).frame_buffer.getD 4 0 = 128 := by
  decide

/-- C3, amended: for every topology without `uint16_t` address overflow
(at most 1023 panels) and every in-bounds (x, y), the address
computation of `vma419_set_pixel`/`vma419_write_pixel` equals the
claimed formula with the row permutation applied only when the permuted
row lies below 16 (rows y ≥ 16 keep their index); the byte index is in
range and `vma419_set_pixel` rewrites exactly that (byte, mask). -/
theorem C3_amended (d : Display) (hWF : d.WF)
    (hDT : d.panels_wide * d.panels_high ≤ 1023) (x y color : Nat)
    (hx : x < d.total_width_pixels) (hy : y < d.total_height_pixels) :
    vma419_pixel_addr d.panels_wide d.panels_high x y =
      pixel_addr_amended d.panels_wide d.panels_high x y ∧
    (vma419_pixel_addr d.panels_wide d.panels_high x y).1 < d.frame_buffer_size ∧
    vma419_set_pixel d x y color =
      set_pixel_target d (vma419_pixel_addr d.panels_wide d.panels_high x y)
        color := by
  obtain ⟨hpw, hpw2, hph, hph2, hw, hh, hsize, hlen, hbytes⟩ := hWF
  have key := vma419_pixel_addr_eq d.panels_wide d.panels_high x y hpw hph hDT
    (by omega) (by omega)
  have hs : d.frame_buffer_size = d.panels_wide * d.panels_high * 64 := by
    rw [hsize, show d.panels_wide * d.panels_high * 64 =
      d.panels_wide * d.panels_high * 64 from rfl]
    exact u16_eq _ (by omega)
  refine ⟨key.1, by omega, ?_⟩
  unfold vma419_set_pixel
  rw [if_neg (by omega : ¬(d.total_width_pixels ≤ x ∨ d.total_height_pixels ≤ y))]
  rw [if_pos (show (vma419_pixel_addr d.panels_wide d.panels_high x y).1 <
    d.frame_buffer_size by omega)]
  unfold set_pixel_target set_pixel_target_fb
  split <;> rfl

/-- C3, witness: the amended address law applied at the 1×2 display and
the in-bounds pixel (0, 16): the write sets bit 0x80 of byte 4. -/
theorem C3_witness :
    vma419_pixel_addr 1 2 0 16 = pixel_addr_amended 1 2 0 16 ∧
    vma419_set_pixel display1x2 0 16 1 =
      { display1x2 with frame_buffer := display1x2.frame_buffer.set 4 128 } := by
  have h := C3_amended display1x2 display1x2_WF (by decide) 0 16 1
    (by decide) (by decide)
  exact ⟨h.1, h.2.2.trans (by decide)⟩

/-! ## C2 — compositing-mode semantics of `vma419_write_pixel` -/

theorem getD_set_self (l : List Nat) (i v : Nat) (h : i < l.length) :
    (l.set i v).getD i 0 = v := by
  simp [List.getD, List.getElem?_set_self', List.getElem?_eq_getElem, h]

theorem getD_set_other (l : List Nat) (i j v : Nat) (h : j ≠ i) :
    (l.set i v).getD j 0 = l.getD j 0 := by
  simp [List.getD, List.getElem?_set_ne (by omega : i ≠ j)]

theorem or_mask_bits (b kb : Nat) :
    ∀ k, (b ||| 2 ^ kb).testBit k = if k = kb then true else b.testBit k := by
  intro k
  rw [Nat.testBit_lor]
  by_cases h : k = kb
  · subst h; simp [Nat.testBit_two_pow_self]
  · simp [Nat.testBit_two_pow_of_ne (by omega : kb ≠ k), h]

theorem and_mask_bits (b kb : Nat) (hkb : kb < 8) (hb : b < 256) :
    ∀ k, (b &&& (255 ^^^ 2 ^ kb)).testBit k = if k = kb then false else b.testBit k := by
  intro k
  rw [Nat.testBit_land, Nat.testBit_xor]
  by_cases h8 : k < 8
  · have h255 : (255 : Nat).testBit k = true := by
      have e : (255 : Nat) = 2 ^ 8 - 1 := by norm_num
      rw [e, Nat.testBit_two_pow_sub_one]
      simpa using h8
    by_cases h : k = kb
    · subst h; simp [h255, Nat.testBit_two_pow_self]
    · simp [h255, Nat.testBit_two_pow_of_ne (by omega : kb ≠ k), h]
  · have hpow : (256 : Nat) ≤ 2 ^ k := by
      calc (256 : Nat) = 2 ^ 8 := by norm_num
        _ ≤ 2 ^ k := Nat.pow_le_pow_right (by norm_num) (by omega)
    have hbf : b.testBit k = false := Nat.testBit_lt_two_pow (by omega)
    have h255f : (255 : Nat).testBit k = false := Nat.testBit_lt_two_pow (by omega)
    simp [hbf, h255f, Nat.testBit_two_pow_of_ne (by omega : kb ≠ k)]

theorem and_mask_ne_zero (b kb : Nat) :
    (b &&& 2 ^ kb ≠ 0) ↔ b.testBit kb = true := by
  rw [Nat.and_two_pow]
  have hpow : (2 : Nat) ^ kb ≠ 0 := (Nat.two_pow_pos kb).ne'
  rcases Bool.eq_false_or_eq_true (b.testBit kb) with h | h <;> simp [h, hpow]

theorem lookup_getD (i : Nat) (h : i < 8) :
    vma419_pixel_lookup_table.getD i 0 = 2 ^ (7 - i) := by
  interval_cases i <;> decide

/-- The bit mask produced by `vma419_pixel_addr` is the power of two at
bit `7 - x % 8` (MSB-first within the byte). -/
theorem pixel_addr_mask (pw ph x y : Nat) :
    (vma419_pixel_addr pw ph x y).2 = 2 ^ (7 - x % 8) := by
  simp only [vma419_pixel_addr, u16]
  rw [lookup_getD _ (by omega)]
  congr 1
  omega

/-- Pointwise description of a single-byte update that fixes bit `kb` of
byte `ptr` to `spec` and keeps every other bit of the byte. -/
theorem set_pointwise (fb : List Nat) (ptr nb kb : Nat) (spec : Bool)
    (hptr : ptr < fb.length)
    (hnb : ∀ k, nb.testBit k = if k = kb then spec else (fb.getD ptr 0).testBit k) :
    ∀ j k, ((fb.set ptr nb).getD j 0).testBit k =
      if j = ptr ∧ k = kb then spec else (fb.getD j 0).testBit k := by
  intro j k
  by_cases hj : j = ptr
  · subst hj
    rw [getD_set_self fb j nb hptr, hnb k]
    by_cases hk : k = kb <;> simp [hk]
  · rw [getD_set_other fb ptr j nb hj]
    simp [hj]

/-- Pointwise description of a no-write branch whose addressed bit is
already equal to the mode's specified result. -/
theorem id_pointwise (fb : List Nat) (ptr kb : Nat) (spec : Bool)
    (hspec : spec = (fb.getD ptr 0).testBit kb) :
    ∀ j k, ((fb).getD j 0).testBit k =
      if j = ptr ∧ k = kb then spec else (fb.getD j 0).testBit k := by
  intro j k
  by_cases hj : j = ptr
  · by_cases hk : k = kb
    · subst hj; subst hk; simp [hspec]
    · simp [hk]
  · simp [hj]

/-- C2: for every well-formed display without address overflow, every
in-bounds pixel and boolean value, `vma419_write_pixel` obeys the five
compositing-mode semantics at the addressed bit (`writePixelModeSpec`),
and no other bit of the frame buffer changes. -/
theorem C2_write_pixel_modes (d : Display) (hWF : d.WF)
    (hDT : d.panels_wide * d.panels_high ≤ 1023)
    (x y mode pixel : Nat)
    (hx : x < d.total_width_pixels) (hy : y < d.total_height_pixels)
    (hm : mode < 5) (hp : pixel < 2) :
    (vma419_write_pixel d x y mode pixel).frame_buffer.length =
      d.frame_buffer.length ∧
    ∀ j k, ((vma419_write_pixel d x y mode pixel).frame_buffer.getD j 0).testBit k =
      if j = (vma419_pixel_addr d.panels_wide d.panels_high x y).1 ∧ k = 7 - x % 8
      then
        writePixelModeSpec mode (decide (pixel = 1))
          ((d.frame_buffer.getD
              (vma419_pixel_addr d.panels_wide d.panels_high x y).1 0).testBit
            (7 - x % 8))
      else (d.frame_buffer.getD j 0).testBit k := by
  obtain ⟨hpw, hpw2, hph, hph2, hw, hh, hsize, hlen, hbytes⟩ := hWF
  have key := vma419_pixel_addr_eq d.panels_wide d.panels_high x y hpw hph hDT
    (by omega) (by omega)
  have hs : d.frame_buffer_size = d.panels_wide * d.panels_high * 64 := by
    rw [hsize]; exact u16_eq _ (by omega)
  have hptr : (vma419_pixel_addr d.panels_wide d.panels_high x y).1 <
      d.frame_buffer.length := by omega
  have hmask := pixel_addr_mask d.panels_wide d.panels_high x y
  set ptr := (vma419_pixel_addr d.panels_wide d.panels_high x y).1 with hptr_def
  set kb := 7 - x % 8 with hkb_def
  have hkb : kb < 8 := by omega
  have hold : d.frame_buffer.getD ptr 0 < 256 := by
    have hmem : d.frame_buffer.getD ptr 0 ∈ d.frame_buffer := by
      rw [List.getD_eq_getElem d.frame_buffer 0 hptr]
      exact List.getElem_mem hptr
    exact hbytes _ hmem
  unfold vma419_write_pixel
  rw [if_neg (by omega : ¬(d.total_width_pixels ≤ x ∨ d.total_height_pixels ≤ y))]
  simp only [← hptr_def, hmask, ← hkb_def]
  rw [if_neg (by omega : ¬d.frame_buffer_size ≤ ptr)]
  set b := d.frame_buffer.getD ptr 0 with hb_def
  have hOr := or_mask_bits b kb
  have hAnd := and_mask_bits b kb hkb hold
  split
  · -- GRAPHICS_NORMAL
    split
    · -- pixel == 1: set the bit
      next hpix =>
      have hsp : writePixelModeSpec 0 (decide (pixel = 1)) (b.testBit kb) = true := by
        simp [writePixelModeSpec, hpix]
      rw [hsp]
      exact ⟨by simp, set_pointwise d.frame_buffer ptr _ kb true hptr hOr⟩
    · -- pixel != 1: clear the bit
      next hpix =>
      have hsp : writePixelModeSpec 0 (decide (pixel = 1)) (b.testBit kb) = false := by
        simp [writePixelModeSpec, hpix]
      rw [hsp]
      exact ⟨by simp, set_pointwise d.frame_buffer ptr _ kb false hptr hAnd⟩
  · -- GRAPHICS_INVERSE
    split
    · -- pixel == 0: set the bit
      next hpix =>
      have hsp : writePixelModeSpec 1 (decide (pixel = 1)) (b.testBit kb) = true := by
        simp [writePixelModeSpec, hpix]
      rw [hsp]
      exact ⟨by simp, set_pointwise d.frame_buffer ptr _ kb true hptr hOr⟩
    · -- pixel != 0 (hence = 1): clear the bit
      next hpix =>
      have hsp : writePixelModeSpec 1 (decide (pixel = 1)) (b.testBit kb) = false := by
        have : pixel = 1 := by omega
        simp [writePixelModeSpec, this]
      rw [hsp]
      exact ⟨by simp, set_pointwise d.frame_buffer ptr _ kb false hptr hAnd⟩
  · -- GRAPHICS_TOGGLE
    split
    · -- pixel == 1: flip the bit
      next hpix =>
      split
      · -- bit was set: clear it
        next hbit =>
        have hb1 : b.testBit kb = true := (and_mask_ne_zero b kb).mp hbit
        have hsp : writePixelModeSpec 2 (decide (pixel = 1)) (b.testBit kb) = false := by
          simp [writePixelModeSpec, hpix, hb1]
        rw [hsp]
        exact ⟨by simp, set_pointwise d.frame_buffer ptr _ kb false hptr hAnd⟩
      · -- bit was clear: set it
        next hbit =>
        have hb0 : b.testBit kb = false := by
          rcases Bool.eq_false_or_eq_true (b.testBit kb) with h | h
          · exact absurd ((and_mask_ne_zero b kb).mpr h) hbit
          · exact h
        have hsp : writePixelModeSpec 2 (decide (pixel = 1)) (b.testBit kb) = true := by
          simp [writePixelModeSpec, hpix, hb0]
        rw [hsp]
        exact ⟨by simp, set_pointwise d.frame_buffer ptr _ kb true hptr hOr⟩
    · -- pixel != 1: no change
      next hpix =>
      have hsp : writePixelModeSpec 2 (decide (pixel = 1)) (b.testBit kb) =
          b.testBit kb := by
        simp [writePixelModeSpec, hpix]
      rw [hsp]
      exact ⟨rfl, id_pointwise d.frame_buffer ptr kb _ rfl⟩
  · -- GRAPHICS_OR
    split
    · -- pixel == 1: set the bit
      next hpix =>
      have hsp : writePixelModeSpec 3 (decide (pixel = 1)) (b.testBit kb) = true := by
        simp [writePixelModeSpec, hpix]
      rw [hsp]
      exact ⟨by simp, set_pointwise d.frame_buffer ptr _ kb true hptr hOr⟩
    · -- pixel != 1: no change
      next hpix =>
      have hsp : writePixelModeSpec 3 (decide (pixel = 1)) (b.testBit kb) =
          b.testBit kb := by
        simp [writePixelModeSpec, hpix]
      rw [hsp]
      exact ⟨rfl, id_pointwise d.frame_buffer ptr kb _ rfl⟩
  · -- GRAPHICS_NOR
    split
    · -- pixel == 1 and bit set: clear it
      next hcond =>
      have hb1 : b.testBit kb = true := (and_mask_ne_zero b kb).mp hcond.2
      have hsp : writePixelModeSpec 4 (decide (pixel = 1)) (b.testBit kb) = false := by
        simp [writePixelModeSpec, hcond.1, hb1]
      rw [hsp]
      exact ⟨by simp, set_pointwise d.frame_buffer ptr _ kb false hptr hAnd⟩
    · -- otherwise: no change
      next hcond =>
      have hsp : writePixelModeSpec 4 (decide (pixel = 1)) (b.testBit kb) =
          b.testBit kb := by
        rcases (by omega : pixel = 0 ∨ pixel = 1) with h | h
        · simp [writePixelModeSpec, h]
        · have hb0 : b.testBit kb = false := by
            rcases Bool.eq_false_or_eq_true (b.testBit kb) with hb | hb
            · exact absurd ⟨h, (and_mask_ne_zero b kb).mpr hb⟩ hcond
            · exact hb
          simp [writePixelModeSpec, h, hb0]
      rw [hsp]
      exact ⟨rfl, id_pointwise d.frame_buffer ptr kb _ rfl⟩
  · -- unreachable: mode < 5
    next hn0 hn1 hn2 hn3 hn4 =>
    rcases (by omega : mode = 0 ∨ mode = 1 ∨ mode = 2 ∨ mode = 3 ∨ mode = 4) with
      h | h | h | h | h
    · exact (hn0 h).elim
    · exact (hn1 h).elim
    · exact (hn2 h).elim
    · exact (hn3 h).elim
    · exact (hn4 h).elim


/-- C2, witness: TOGGLE with value true at the in-bounds pixel (0,0) of
the cleared 1×1 display sets the addressed bit (byte 12, bit 7) and
leaves a neighbouring byte's bit unchanged. -/
theorem C2_witness :
    ((vma419_write_pixel display1x1 0 0 2 1).frame_buffer.getD 12 0).testBit 7 = true ∧
    ((vma419_write_pixel display1x1 0 0 2 1).frame_buffer.getD 13 0).testBit 7 = false := by
  have h := C2_write_pixel_modes display1x1 display1x1_WF (by decide) 0 0 2 1
    (by decide) (by decide) (by decide) (by decide)
  exact ⟨(h.2 12 7).trans (by decide), (h.2 13 7).trans (by decide)⟩

/-! ## C4 — the concrete two-pixel scenario -/

/-- The display state of the C4 scenario: a 1×1 display with a cleared
buffer after `set_pixel(0,0,1)` and `set_pixel(31,15,1)`. -/
def c4_state : Display :=
  vma419_set_pixel (vma419_set_pixel display1x1 0 0 1) 31 15 1

/-- C4, counterexample: after the two writes, byte 0 and byte 63 of the
buffer are both still zero — neither bit the claim names is set (the
writes land on bytes 12 and 59 instead, because of the row remap). -/
theorem C4_counterexample :
    c4_state.frame_buffer.getD 0 0 = 0 ∧
    c4_state.frame_buffer.getD 63 0 = 0 := by
  decide

/-- C4, amended: the two writes set exactly two bits of the 64-byte
buffer — bit-mask 0x80 of byte 12 (row 0 remaps to physical row 3) and
bit-mask 0x01 of byte 59 (row 15 remaps to physical row 14). -/
theorem C4_amended :
    c4_state.frame_buffer = ((List.replicate 64 0).set 12 128).set 59 1 := by
  decide

/-! ## C5 — out-of-bounds writes are silent no-ops -/

/-- C5: for any coordinates at or beyond the display bounds, both
`vma419_set_pixel` and `vma419_write_pixel` return with the display state
(frame buffer and every other field) unchanged; neither has any error
channel. -/
theorem C5_oob_noop (d : Display) (x y color mode pixel : Nat)
    (h : d.total_width_pixels ≤ x ∨ d.total_height_pixels ≤ y) :
    vma419_set_pixel d x y color = d ∧
    vma419_write_pixel d x y mode pixel = d := by
  constructor
  · unfold vma419_set_pixel
    exact if_pos h
  · unfold vma419_write_pixel
    exact if_pos h

/-- C5, witness: both writes at (32, 0) on the 1×1 display are no-ops. -/
theorem C5_witness :
    (display1x1.total_width_pixels ≤ 32 ∨ display1x1.total_height_pixels ≤ 0) ∧
    vma419_set_pixel display1x1 32 0 1 = display1x1 ∧
    vma419_write_pixel display1x1 32 0 0 1 = display1x1 :=
  ⟨Or.inl (by decide), C5_oob_noop display1x1 32 0 1 0 1 (Or.inl (by decide))⟩

/-! ## C10 — unrecognized graphics mode is a silent no-op -/

/-- C10: for every graphics mode outside {0,1,2,3,4} (the `switch` in
`vma419_write_pixel` has no `default` arm), `vma419_write_pixel` leaves
the frame buffer and the rest of the display state completely unchanged,
for all coordinates — in-bounds ones included. -/
theorem C10_unknown_mode_noop (d : Display) (x y mode pixel : Nat)
    (h : 5 ≤ mode) :
    vma419_write_pixel d x y mode pixel = d := by
  obtain ⟨c, rfl⟩ : ∃ c, mode = c + 5 := ⟨mode - 5, by omega⟩
  unfold vma419_write_pixel
  split
  · rfl
  · split <;> first | omega | simp only [ite_self]

/-- C10, witness: mode 7 at the in-bounds pixel (3, 4) of the 1×1 display
is a no-op. -/
theorem C10_witness :
    5 ≤ 7 ∧ vma419_write_pixel display1x1 3 4 7 1 = display1x1 :=
  ⟨by decide, C10_unknown_mode_noop display1x1 3 4 7 1 (by decide)⟩

/-! ## Font engine (`src/VMA419_Font.h`) -/

/-- `vma419_font_5x7` (`src/VMA419_Font.h`, lines 41-326): the packed
5×7 font, 5 column bytes per character for ASCII codes 32-126; bit 0 of
a column byte is the top row. -/
def vma419_font_5x7 : List Nat := [
  0, 0, 0, 0, 0, 0, 0, 95, 0, 0, 0, 7, 0, 7, 0, 20, 127, 20, 127,
  20, 36, 42, 127, 42, 18, 35, 19, 8, 100, 98, 54, 73, 85, 34, 80, 0, 5, 3,
  0, 0, 0, 28, 34, 65, 0, 0, 65, 34, 28, 0, 8, 42, 28, 42, 8, 8, 8,
  62, 8, 8, 0, 80, 48, 0, 0, 8, 8, 8, 8, 8, 0, 96, 96, 0, 0, 32,
  16, 8, 4, 2, 62, 81, 73, 69, 62, 0, 66, 127, 64, 0, 66, 97, 81, 73, 70,
  33, 65, 69, 75, 49, 24, 20, 18, 127, 16, 39, 69, 69, 69, 57, 60, 74, 73, 73,
  48, 1, 113, 9, 5, 3, 54, 73, 73, 73, 54, 6, 73, 73, 41, 30, 0, 54, 54,
  0, 0, 0, 86, 54, 0, 0, 0, 8, 20, 34, 65, 20, 20, 20, 20, 20, 65, 34,
  20, 8, 0, 2, 1, 81, 9, 6, 50, 73, 121, 65, 62, 126, 17, 17, 17, 126, 127,
  73, 73, 73, 54, 62, 65, 65, 65, 34, 127, 65, 65, 34, 28, 127, 73, 73, 73, 65,
  127, 9, 9, 1, 1, 62, 65, 65, 81, 50, 127, 8, 8, 8, 127, 0, 65, 127, 65,
  0, 32, 64, 65, 63, 1, 127, 8, 20, 34, 65, 127, 64, 64, 64, 64, 127, 2, 4,
  2, 127, 127, 4, 8, 16, 127, 62, 65, 65, 65, 62, 127, 9, 9, 9, 6, 62, 65,
  81, 33, 94, 127, 9, 25, 41, 70, 70, 73, 73, 73, 49, 1, 1, 127, 1, 1, 63,
  64, 64, 64, 63, 31, 32, 64, 32, 31, 127, 32, 24, 32, 127, 99, 20, 8, 20, 99,
  3, 4, 120, 4, 3, 97, 81, 73, 69, 67, 0, 0, 127, 65, 65, 2, 4, 8, 16,
  32, 65, 65, 127, 0, 0, 4, 2, 1, 2, 4, 64, 64, 64, 64, 64, 0, 1, 2,
  4, 0, 32, 84, 84, 84, 120, 127, 72, 68, 68, 56, 56, 68, 68, 68, 32, 56, 68,
  68, 72, 127, 56, 84, 84, 84, 24, 8, 126, 9, 1, 2, 8, 20, 84, 84, 60, 127,
  8, 4, 4, 120, 0, 68, 125, 64, 0, 32, 64, 68, 61, 0, 0, 127, 16, 40, 68,
  0, 65, 127, 64, 0, 124, 4, 24, 4, 120, 124, 8, 4, 4, 120, 56, 68, 68, 68,
  56, 124, 20, 20, 20, 8, 8, 20, 20, 24, 124, 124, 8, 4, 4, 8, 72, 84, 84,
  84, 32, 4, 63, 68, 64, 32, 60, 64, 64, 32, 124, 28, 32, 64, 32, 28, 60, 64,
  48, 64, 60, 68, 40, 16, 40, 68, 12, 80, 80, 80, 60, 68, 100, 84, 76, 68, 0,
  8, 54, 65, 0, 0, 0, 127, 0, 0, 0, 65, 54, 8, 0, 8, 8, 42, 28, 8]

/-- `vma419_font_draw_char` (`src/VMA419_Font.h`, lines 349-383).
Coordinates are `int16_t` (modelled as `Int`); the character is the
byte value of the C `char` argument (codes 128-255 are negative `char`s
and fail the `c < 32` test, so the in-range band is exactly [32, 127)).
Returns the updated display and the returned width. -/
def vma419_font_draw_char (d : Display) (x y : Int) (c : Nat) : Display × Nat :=
  if c < 32 ∨ 127 ≤ c then (d, 0)
  else if 32 ≤ x ∨ 16 ≤ y then (d, 0)
  else if x + 5 < 0 ∨ y + 7 < 0 then (d, 5)
  else
    let char_index := c - 32
    let data_offset := char_index * 5
    let d2 := (List.range 5).foldl (fun acc (col : Nat) =>
      let pixel_x := x + (col : Int)
      if 0 ≤ pixel_x ∧ pixel_x < 32 then
        let column_data := vma419_font_5x7.getD (data_offset + col) 0
        (List.range 7).foldl (fun acc2 (row : Nat) =>
          let pixel_y := y + (row : Int)
          if 0 ≤ pixel_y ∧ pixel_y < 16 then
            if column_data.testBit row then
              vma419_set_pixel acc2 pixel_x.toNat pixel_y.toNat 1
            else acc2
          else acc2) acc
      else acc) d
    (d2, 5)

/-- `vma419_font_draw_string` (`src/VMA419_Font.h`, lines 392-402): draw
characters while the cursor is left of column 32, advancing by the
returned width plus one spacing column. -/
def vma419_font_draw_string : Display → Int → Int → List Nat → Display
  | d, _, _, [] => d
  | d, cursor_x, y, c :: rest =>
      if cursor_x < 32 then
        let r := vma419_font_draw_char d cursor_x y c
        vma419_font_draw_string r.1 (cursor_x + r.2 + 1) y rest
      else d

/-- The width returned by `vma419_font_draw_char`, in closed form: 0 for
out-of-range characters and for x ≥ 32 or y ≥ 16, else the fixed width
5 (including glyphs fully off the left/top edge). -/
theorem draw_char_width (d : Display) (x y : Int) (c : Nat) :
    (vma419_font_draw_char d x y c).2 =
      if c < 32 ∨ 127 ≤ c then 0
      else if 32 ≤ x ∨ 16 ≤ y then 0
      else 5 := by
  simp only [vma419_font_draw_char]
  split_ifs <;> rfl

/-- A fold preserves any invariant preserved by each step. -/
theorem foldl_preserves {α β : Type} (P : β → Prop) (f : β → α → β)
    (hf : ∀ b a, P b → P (f b a)) : ∀ (l : List α) (b : β), P b → P (l.foldl f b) := by
  intro l
  induction l with
  | nil => intro b h; exact h
  | cons a t ih => intro b h; exact ih _ (hf b a h)

/-- Setting a bit (the `color ≠ 0` branch of `vma419_set_pixel`) never
clears any bit of any byte. -/
theorem getD_set_or_mono (l : List Nat) (i v j k : Nat)
    (h : (l.getD j 0).testBit k = true) :
    ((l.set i (l.getD i 0 ||| v)).getD j 0).testBit k = true := by
  by_cases hj : j = i
  · subst hj
    by_cases hlen : j < l.length
    · rw [getD_set_self _ _ _ hlen, Nat.testBit_lor, h]
      rfl
    · rw [List.set_eq_of_length_le (by omega)]
      exact h
  · rw [getD_set_other _ _ _ _ hj]
    exact h

/-- `vma419_set_pixel` with color 1 never clears any frame-buffer bit. -/
theorem set_pixel_one_mono (d : Display) (x y j k : Nat)
    (h : (d.frame_buffer.getD j 0).testBit k = true) :
    ((vma419_set_pixel d x y 1).frame_buffer.getD j 0).testBit k = true := by
  simp only [vma419_set_pixel]
  split
  · exact h
  · split
    · rw [if_pos (by decide : (1 : Nat) ≠ 0)]
      exact getD_set_or_mono _ _ _ _ _ h
    · exact h

/-- `vma419_font_draw_char` never clears any frame-buffer bit: all its
writes go through `vma419_set_pixel` with color 1. -/
theorem draw_char_mono (d : Display) (x y : Int) (c : Nat) (j k : Nat)
    (h : (d.frame_buffer.getD j 0).testBit k = true) :
    (((vma419_font_draw_char d x y c).1).frame_buffer.getD j 0).testBit k = true := by
  simp only [vma419_font_draw_char]
  split
  · exact h
  · split
    · exact h
    · split
      · exact h
      · refine foldl_preserves
          (fun d2 => (d2.frame_buffer.getD j 0).testBit k = true) _ ?_ _ d h
        intro b a hb
        split
        · refine foldl_preserves
            (fun d2 => (d2.frame_buffer.getD j 0).testBit k = true) _ ?_ _ b hb
          intro b2 a2 hb2
          split
          · split
            · exact set_pixel_one_mono _ _ _ _ _ hb2
            · exact hb2
          · exact hb2
        · exact hb

/-- `vma419_font_draw_string` never clears any frame-buffer bit. -/
theorem draw_string_mono (str : List Nat) : ∀ (d : Display) (x y : Int) (j k : Nat),
    (d.frame_buffer.getD j 0).testBit k = true →
    ((vma419_font_draw_string d x y str).frame_buffer.getD j 0).testBit k = true := by
  induction str with
  | nil => intro d x y j k h; exact h
  | cons c rest ih =>
      intro d x y j k h
      simp only [vma419_font_draw_string]
      split
      · exact ih _ _ _ _ _ (draw_char_mono d x y c j k h)
      · exact h

/-! ## C7 — the width returned by draw_char -/

/-- C7, counterexample: the in-range character code 65 drawn at x = 32
returns width 0, not the fixed width 5 the claim requires for every
in-range code. -/
theorem C7_counterexample :
    32 ≤ (65 : Nat) ∧ (65 : Nat) < 127 ∧
    (vma419_font_draw_char display1x1 32 0 65).2 = 0 ∧
    (vma419_font_draw_char display1x1 32 0 65).2 ≠ 5 := by
  refine ⟨by decide, by decide, ?_, ?_⟩ <;> rw [draw_char_width] <;> decide

/-- C7, amended: `vma419_font_draw_char` returns 0 exactly when the
character code is outside [32, 127) OR the anchor lies at or beyond the
right/bottom edge (x ≥ 32 or y ≥ 16); in every other case — including
glyphs partially visible or fully off the left/top edge — it returns
the fixed width 5. -/
theorem C7_amended (d : Display) (x y : Int) (c : Nat) :
    (vma419_font_draw_char d x y c).2 =
      if c < 32 ∨ 127 ≤ c then 0
      else if 32 ≤ x ∨ 16 ≤ y then 0
      else 5 :=
  draw_char_width d x y c

/-! ## C6 — draw_string layout and the separator column -/

/-- The C6 scenario: a 1×1 display whose gap-column pixel (5, 0) is
pre-set (byte 12, bit 2), then `draw_string(0, 0, "A")`. -/
def c6_pre : Display := vma419_set_pixel display1x1 5 0 1

/-- The display after drawing "A" over the pre-set gap pixel. -/
def c6_post : Display := vma419_font_draw_string c6_pre 0 0 [65]

set_option maxRecDepth 4000 in
/-- C6, counterexample: drawing "A" at (0,0) leaves the pre-set pixel in
the separator column x = 5 SET — the gap column is not cleared, because
`vma419_font_draw_string` never draws the separator in INVERSE mode (it
merely skips the column); meanwhile the glyph itself was drawn (pixel
(0,1), byte 0 bit 7, is set). -/
theorem C6_counterexample :
    (c6_pre.frame_buffer.getD 12 0).testBit 2 = true ∧
    (c6_post.frame_buffer.getD 12 0).testBit 2 = true ∧
    (c6_post.frame_buffer.getD 0 0).testBit 7 = true := by
  refine ⟨by decide, ?_, ?_⟩ <;> decide

/-- C6, amended: `vma419_font_draw_string` draws glyphs left to right,
advancing the cursor by glyph-width + 1 — exactly 6 pixels per in-range
character when y < 16 — and stops before drawing a glyph once the
cursor has reached column 32; but the one-column separator is simply
skipped, never drawn: no call ever clears a frame-buffer bit, so the
gap column keeps its prior content instead of being cleared. -/
theorem C6_amended :
    (∀ (d : Display) (x y : Int) (c : Nat) (rest : List Nat),
        32 ≤ c → c < 127 → x < 32 → y < 16 →
        vma419_font_draw_string d x y (c :: rest) =
          vma419_font_draw_string (vma419_font_draw_char d x y c).1 (x + 6) y rest) ∧
    (∀ (d : Display) (x y : Int) (str : List Nat),
        32 ≤ x → vma419_font_draw_string d x y str = d) ∧
    (∀ (d : Display) (x y : Int) (str : List Nat) (j k : Nat),
        (d.frame_buffer.getD j 0).testBit k = true →
        ((vma419_font_draw_string d x y str).frame_buffer.getD j 0).testBit k =
          true) := by
  refine ⟨?_, ?_, ?_⟩
  · intro d x y c rest hc1 hc2 hx hy
    simp only [vma419_font_draw_string]
    rw [if_pos hx]
    have hw : (vma419_font_draw_char d x y c).2 = 5 := by
      rw [draw_char_width, if_neg (by omega), if_neg (by omega)]
    rw [hw]
    have e : x + ((5 : Nat) : Int) + 1 = x + 6 := by omega
    rw [e]
  · intro d x y str hx
    cases str with
    | nil => rfl
    | cons c rest =>
        simp only [vma419_font_draw_string]
        rw [if_neg (by omega)]
  · intro d x y str j k h
    exact draw_string_mono str d x y j k h

/-- C6, witness: the three amended properties at concrete inputs — the
cursor advances from 0 to 6 after "A", `draw_string` at x = 32 is a
no-op, and the pre-set gap bit survives drawing. -/
theorem C6_witness :
    vma419_font_draw_string display1x1 0 0 [65, 66] =
      vma419_font_draw_string (vma419_font_draw_char display1x1 0 0 65).1 6 0 [66] ∧
    vma419_font_draw_string display1x1 32 0 [65] = display1x1 ∧
    ((vma419_font_draw_string c6_pre 0 0 [65]).frame_buffer.getD 12 0).testBit 2 =
      true := by
  have h := C6_amended
  exact ⟨h.1 display1x1 0 0 65 [66] (by decide) (by decide) (by decide) (by decide),
    h.2.1 display1x1 32 0 [65] (by decide),
    h.2.2 c6_pre 0 0 [65] 12 2 (by decide)⟩


end VMA419

namespace DMD419

/-- The DMD419 object state (`src/Cpp_Lib/DMD419/DMD419.h`, lines
119-199).  `row1`/`row2`/`row3` and the scan pointer `bDMD419Byte` are
used only by `scanDisplayBySPI` and are not needed for the marquee
operations embedded here; the font is the PROGMEM byte array pointed to
by `Font`, and `marqueeText` holds the marquee characters. -/
structure State where
  DisplaysWide : Nat
  DisplaysHigh : Nat
  DisplaysTotal : Nat
  bDMD419ScreenRAM : List Nat
  Font : List Nat
  marqueeText : List Nat
  marqueeLength : Nat
  marqueeWidth : Int
  marqueeHeight : Int
  marqueeOffsetX : Int
  marqueeOffsetY : Int
deriving DecidableEq, Repr

/-- Well-formedness of a DMD419 object: nonzero `byte` panel counts,
`DisplaysTotal` as computed by the constructor, and an allocated screen
buffer of `DMD419_RAM_SIZE_BYTES * DisplaysTotal = 64 * DisplaysTotal`
bytes. -/
def State.WF (d : State) : Prop :=
  1 ≤ d.DisplaysWide ∧ d.DisplaysWide < 256 ∧
  1 ≤ d.DisplaysHigh ∧ d.DisplaysHigh < 256 ∧
  d.DisplaysTotal = d.DisplaysWide * d.DisplaysHigh ∧
  d.bDMD419ScreenRAM.length = 64 * d.DisplaysTotal ∧
  ∀ b ∈ d.bDMD419ScreenRAM, b < 256

/-- `bPixelLookupTable` (`src/Cpp_Lib/DMD419/DMD419.h`, lines 95-105). -/
def bPixelLookupTable : List Nat := [128, 64, 32, 16, 8, 4, 2, 1]

/-- `DMD419::charWidth` (`src/Lib/DMD419/DMD419.cpp`, lines 535-561):
space uses the width of the letter n; out-of-range codes give width 0;
a zero 16-bit length field marks a fixed-width font. -/
def charWidth (d : State) (letter : Nat) : Nat :=
  let c := if letter = 32 then 110 else letter
  let firstChar := d.Font.getD 4 0
  let charCount := d.Font.getD 5 0
  if c < firstChar ∨ firstChar + charCount ≤ c then 0
  else
    let ci := c - firstChar
    if d.Font.getD 0 0 = 0 ∧ d.Font.getD 1 0 = 0 then d.Font.getD 2 0
    else d.Font.getD (6 + ci) 0

/-- `DMD419::writePixel` (`src/Lib/DMD419/DMD419.cpp`, lines 78-128).
The C++ parameters are `unsigned int` (16 bits on AVR) while every
caller passes `int` values; a negative `int` converts to a value
≥ 32768, which always fails the `bX >= 32*DisplaysWide` bound (the
display is at most 255×32 = 8160 pixels wide), so negative coordinates
are modelled as out of bounds.  DMD419 polarity: a ZERO bit is a lit
pixel, so NORMAL with a true pixel clears the addressed bit. -/
def writePixel (d : State) (bX bY : Int) (mode : Nat) (pixel : Bool) : State :=
  if bX < 0 ∨ (32 * d.DisplaysWide : Int) ≤ bX ∨
      bY < 0 ∨ (16 * d.DisplaysHigh : Int) ≤ bY then d
  else
    let x := bX.toNat
    let y := bY.toNat
    let panel := x / 32 + d.DisplaysWide * (y / 16)
    let x2 := x % 32 + panel * 32
    let y2 := y % 16
    let ptr := x2 / 8 + y2 * (d.DisplaysTotal * 4)
    let lookup := bPixelLookupTable.getD (x2 % 8) 0
    let b := d.bDMD419ScreenRAM.getD ptr 0
    match mode with
    | 0 =>
        if pixel then
          { d with bDMD419ScreenRAM := d.bDMD419ScreenRAM.set ptr (b &&& (255 ^^^ lookup)) }
        else
          { d with bDMD419ScreenRAM := d.bDMD419ScreenRAM.set ptr (b ||| lookup) }
    | 1 =>
        if pixel = false then
          { d with bDMD419ScreenRAM := d.bDMD419ScreenRAM.set ptr (b &&& (255 ^^^ lookup)) }
        else
          { d with bDMD419ScreenRAM := d.bDMD419ScreenRAM.set ptr (b ||| lookup) }
    | 2 =>
        if pixel then
          if b &&& lookup = 0 then
            { d with bDMD419ScreenRAM := d.bDMD419ScreenRAM.set ptr (b ||| lookup) }
          else
            { d with bDMD419ScreenRAM := d.bDMD419ScreenRAM.set ptr (b &&& (255 ^^^ lookup)) }
        else d
    | 3 =>
        if pixel then
          { d with bDMD419ScreenRAM := d.bDMD419ScreenRAM.set ptr (b &&& (255 ^^^ lookup)) }
        else d
    | 4 =>
        if pixel ∧ b &&& lookup = 0 then
          { d with bDMD419ScreenRAM := d.bDMD419ScreenRAM.set ptr (b ||| lookup) }
        else d
    | _ => d

/-- The `dx > dy` arm of `DMD419::drawLine` (`src/Lib/DMD419/DMD419.cpp`,
lines 283-293).  The C `while (x1 != x2)` loop moves `x1` one `stepx`
toward `x2` every iteration, so it runs exactly `|x2 - x1|` times; the
fuel argument is instantiated with that count. -/
def bresLoopX (mode : Nat) (stepx stepy dx dy : Int) :
    Nat → State → Int → Int → Int → State
  | 0, d, _, _, _ => d
  | n + 1, d, x1, y1, fraction =>
      let y2 := if 0 ≤ fraction then y1 + stepy else y1
      let f2 := if 0 ≤ fraction then fraction - dx else fraction
      let x2 := x1 + stepx
      let f3 := f2 + dy
      let d2 := writePixel d x2 y2 mode true
      bresLoopX mode stepx stepy dx dy n d2 x2 y2 f3

/-- The `dx ≤ dy` arm of `DMD419::drawLine` (lines 294-305): the
`while (y1 != y2)` loop steps `y1` once per iteration, running exactly
`|y2 - y1|` times. -/
def bresLoopY (mode : Nat) (stepx stepy dx dy : Int) :
    Nat → State → Int → Int → Int → State
  | 0, d, _, _, _ => d
  | n + 1, d, x1, y1, fraction =>
      let x2 := if 0 ≤ fraction then x1 + stepx else x1
      let f2 := if 0 ≤ fraction then fraction - dy else fraction
      let y2 := y1 + stepy
      let f3 := f2 + dx
      let d2 := writePixel d x2 y2 mode true
      bresLoopY mode stepx stepy dx dy n d2 x2 y2 f3

/-- `DMD419::drawLine` (`src/Lib/DMD419/DMD419.cpp`, lines 261-306):
Bresenham with the doubled deltas of the source. -/
def drawLine (d : State) (x1 y1 x2 y2 : Int) (mode : Nat) : State :=
  let dy0 := y2 - y1
  let dx0 := x2 - x1
  let stepy : Int := if dy0 < 0 then -1 else 1
  let stepx : Int := if dx0 < 0 then -1 else 1
  let dy := 2 * (if dy0 < 0 then -dy0 else dy0)
  let dx := 2 * (if dx0 < 0 then -dx0 else dx0)
  let d1 := writePixel d x1 y1 mode true
  if dy < dx then
    bresLoopX mode stepx stepy dx dy dx0.natAbs d1 x1 y1 (dy - dx / 2)
  else
    bresLoopY mode stepx stepy dx dy dy0.natAbs d1 x1 y1 (dx - dy / 2)

/-- `DMD419::drawFilledBox` (lines 370-376): one vertical line per
column `b` from `x1` to `x2` inclusive. -/
def drawFilledBox (d : State) (x1 y1 x2 y2 : Int) (mode : Nat) : State :=
  (List.range (x2 + 1 - x1).toNat).foldl
    (fun acc (i : Nat) => drawLine acc (x1 + (i : Int)) y1 (x1 + (i : Int)) y2 mode) d

/-- `DMD419::drawChar` (`src/Lib/DMD419/DMD419.cpp`, lines 477-533).
Returns the updated state and the returned `int` (width, 0 for an
out-of-range code, -1 when the anchor is beyond the panel).  The
`for (uint8_t i = bytes - 1; i < 254; i--)` loop runs `i` from
`bytes - 1` down to 0 (the `uint8_t` wrap to 255 ends it), modelled by
folding over `(List.range bytes).reverse`. -/
def drawChar (d : State) (bX bY : Int) (letter mode : Nat) : State × Int :=
  if (32 * d.DisplaysWide : Int) < bX ∨ (16 * d.DisplaysHigh : Int) < bY then (d, -1)
  else
    let height := d.Font.getD 3 0
    if letter = 32 then
      let cw := charWidth d 32
      (drawFilledBox d bX bY (bX + cw) (bY + height) 1, cw)
    else
      let bytes := (height + 7) / 8
      let firstChar := d.Font.getD 4 0
      let charCount := d.Font.getD 5 0
      if letter < firstChar ∨ firstChar + charCount ≤ letter then (d, 0)
      else
        let c := letter - firstChar
        let wi : Nat × Nat :=
          if d.Font.getD 0 0 = 0 ∧ d.Font.getD 1 0 = 0 then
            (d.Font.getD 2 0, c * bytes * (d.Font.getD 2 0) + 6)
          else
            (d.Font.getD (6 + c) 0,
              (List.range c).foldl (fun s i => s + d.Font.getD (6 + i) 0) 0 * bytes +
                charCount + 6)
        let width := wi.1
        let index := wi.2
        if bX < -(width : Int) ∨ bY < -(height : Int) then (d, width)
        else
          let d2 := (List.range width).foldl (fun acc (j : Nat) =>
            ((List.range bytes).reverse).foldl (fun acc2 (i : Nat) =>
              let data := d.Font.getD (index + j + i * width) 0
              let offset : Int :=
                if i = bytes - 1 ∧ 1 < bytes then (height : Int) - 8 else (i * 8 : Nat)
              (List.range 8).foldl (fun acc3 (k : Nat) =>
                if (i * 8 : Int) ≤ offset + k ∧ offset + k ≤ (height : Int) then
                  writePixel acc3 (bX + j) (bY + offset + k) mode (data.testBit k)
                else acc3) acc2) acc) d
          (d2, width)

/-- The character loop of `DMD419::drawString` (lines 141-151). -/
def drawStringLoop (bX bY : Int) (mode : Nat) (height : Nat) :
    List Nat → Int → State → State
  | [], _, d => d
  | ch :: rest, strWidth, d =>
      let r := drawChar d (bX + strWidth) bY ch mode
      if 0 < r.2 then
        let sw2 := strWidth + r.2
        let d2 := drawLine r.1 (bX + sw2) bY (bX + sw2) (bY + (height : Int)) 1
        let sw3 := sw2 + 1
        if (32 * d2.DisplaysWide : Int) ≤ bX + sw3 ∨
            (16 * d2.DisplaysHigh : Int) ≤ bY then d2
        else drawStringLoop bX bY mode height rest sw3 d2
      else if r.2 < 0 then r.1
      else
        if (32 * r.1.DisplaysWide : Int) ≤ bX + strWidth ∨
            (16 * r.1.DisplaysHigh : Int) ≤ bY then r.1
        else drawStringLoop bX bY mode height rest strWidth r.1

/-- `DMD419::drawString` (`src/Lib/DMD419/DMD419.cpp`, lines 130-152):
leading separator column in INVERSE, then the character loop. -/
def drawString (d : State) (bX bY : Int) (chars : List Nat) (len : Nat)
    (mode : Nat) : State :=
  if (32 * d.DisplaysWide : Int) ≤ bX ∨ (16 * d.DisplaysHigh : Int) ≤ bY then d
  else
    let height := d.Font.getD 3 0
    if bY + (height : Int) < 0 then d
    else
      let d1 := drawLine d (bX - 1) bY (bX - 1) (bY + (height : Int)) 1
      drawStringLoop bX bY mode height (chars.take len) 0 d1

/-- `DMD419::clearScreen` (lines 250-256): `memset` of the whole screen
RAM; `0xFF` (all bits set) is all pixels OFF in DMD419 polarity. -/
def clearScreen (d : State) (bNormal : Bool) : State :=
  if bNormal then
    { d with bDMD419ScreenRAM := List.replicate (64 * d.DisplaysTotal) 255 }
  else
    { d with bDMD419ScreenRAM := List.replicate (64 * d.DisplaysTotal) 0 }

/-- The whole-screen one-bit left shift of `DMD419::stepMarquee`
(`src/Lib/DMD419/DMD419.cpp`, lines 199-206), as the in-place ascending
loop of the source: every byte is shifted left; a byte at the end of a
logical row (index ≡ DisplaysWide*4 - 1 mod DisplaysWide*4) takes a
constant 1 fill bit, every other byte takes the MSB of the following
byte as carry. -/
def shiftScreenLeft (dw dt : Nat) (buf : List Nat) : List Nat :=
  (List.range (64 * dt)).foldl
    (fun b i => b.set i
      (if i % (dw * 4) = dw * 4 - 1 then (b.getD i 0 * 2 + 1) % 256
       else (b.getD i 0 * 2 + (b.getD (i + 1) 0 &&& 128) >>> 7) % 256)) buf

/-- The whole-screen one-bit right shift of `DMD419::stepMarquee`
(lines 219-226), as the in-place descending loop of the source: a byte
at the start of a logical row (index ≡ 0 mod DisplaysWide*4) takes a
constant 1 fill bit in the MSB, every other byte takes the LSB of the
preceding byte as carry. -/
def shiftScreenRight (dw dt : Nat) (buf : List Nat) : List Nat :=
  ((List.range (64 * dt)).reverse).foldl
    (fun b i => b.set i
      (if i % (dw * 4) = 0 then b.getD i 0 >>> 1 + 128
       else b.getD i 0 >>> 1 + (b.getD (i - 1) 0 &&& 1) <<< 7)) buf

/-- The redraw scan after a left shift (lines 209-217): find the first
character reaching the right edge and redraw it in NORMAL mode. -/
def marqueeRedrawLeft (oy : Int) : List Nat → Int → State → State
  | [], _, d => d
  | ch :: rest, strWidth, d =>
      let wide := charWidth d ch
      if (32 * d.DisplaysWide : Int) ≤ strWidth + wide then
        (drawChar d strWidth oy ch 0).1
      else marqueeRedrawLeft oy rest (strWidth + wide + 1) d

/-- The redraw scan after a right shift (lines 229-237). -/
def marqueeRedrawRight (oy : Int) : List Nat → Int → State → State
  | [], _, d => d
  | ch :: rest, strWidth, d =>
      let wide := charWidth d ch
      if (0 : Int) ≤ strWidth + wide then
        (drawChar d strWidth oy ch 0).1
      else marqueeRedrawRight oy rest (strWidth + wide + 1) d

/-- The X-wrap step of `DMD419::stepMarquee` (lines 176-184). -/
def marqueeStepX (d : State) : State × Bool :=
  if d.marqueeOffsetX < -d.marqueeWidth then
    (clearScreen { d with marqueeOffsetX := (32 * d.DisplaysWide : Int) } true, true)
  else if (32 * d.DisplaysWide : Int) < d.marqueeOffsetX then
    (clearScreen { d with marqueeOffsetX := -d.marqueeWidth } true, true)
  else (d, false)

/-- The Y-wrap step of `DMD419::stepMarquee` (lines 187-195). -/
def marqueeStepY (d : State) (ret : Bool) : State × Bool :=
  if d.marqueeOffsetY < -d.marqueeHeight then
    (clearScreen { d with marqueeOffsetY := (16 * d.DisplaysHigh : Int) } true, true)
  else if (16 * d.DisplaysHigh : Int) < d.marqueeOffsetY then
    (clearScreen { d with marqueeOffsetY := -d.marqueeHeight } true, true)
  else (d, ret)

/-- `DMD419::stepMarquee` (`src/Lib/DMD419/DMD419.cpp`, lines 170-244):
move the offsets, apply the boundary wraps (resetting the offset and
clearing the screen), then either the fast single-bit shift path for
`dy = 0, dx = ±1` (shift plus redraw of the character at the entering
edge) or a full re-render. -/
def stepMarquee (d0 : State) (amountX amountY : Int) : State × Bool :=
  let dA := { d0 with marqueeOffsetX := d0.marqueeOffsetX + amountX }
  let d1 := { dA with marqueeOffsetY := dA.marqueeOffsetY + amountY }
  let xr := marqueeStepX d1
  let yr := marqueeStepY xr.1 xr.2
  let d := yr.1
  let ret := yr.2
  if amountY = 0 ∧ amountX = -1 then
    let s2 := shiftScreenLeft d.DisplaysWide d.DisplaysTotal d.bDMD419ScreenRAM
    let d2 := { d with bDMD419ScreenRAM := s2 }
    (marqueeRedrawLeft d2.marqueeOffsetY (d2.marqueeText.take d2.marqueeLength)
      d2.marqueeOffsetX d2, ret)
  else if amountY = 0 ∧ amountX = 1 then
    let s2 := shiftScreenRight d.DisplaysWide d.DisplaysTotal d.bDMD419ScreenRAM
    let d2 := { d with bDMD419ScreenRAM := s2 }
    (marqueeRedrawRight d2.marqueeOffsetY (d2.marqueeText.take d2.marqueeLength)
      d2.marqueeOffsetX d2, ret)
  else
    (drawString d d.marqueeOffsetX d.marqueeOffsetY d.marqueeText d.marqueeLength 0,
      ret)

/-! ## C9 — the fast-path byte shift and its row-boundary behaviour -/

open VMA419 (getD_set_self getD_set_other foldl_preserves)

/-- One step of an index-wise in-place byte update reading the next
byte. -/
def shiftStepAsc (g : Nat → Nat → Nat → Nat) (b : List Nat) (j : Nat) : List Nat :=
  b.set j (g j (b.getD j 0) (b.getD (j + 1) 0))

/-- One step of an index-wise in-place byte update reading the previous
byte. -/
def shiftStepDesc (g : Nat → Nat → Nat → Nat) (b : List Nat) (j : Nat) : List Nat :=
  b.set j (g j (b.getD j 0) (b.getD (j - 1) 0))

theorem foldl_length_inv (step : List Nat → Nat → List Nat)
    (hstep : ∀ b i, (step b i).length = b.length) :
    ∀ (idxs : List Nat) (l : List Nat), (idxs.foldl step l).length = l.length := by
  intro idxs
  induction idxs with
  | nil => intro l; rfl
  | cons i t ih => intro l; rw [List.foldl_cons, ih, hstep]

theorem shiftStepAsc_length (g : Nat → Nat → Nat → Nat) (b : List Nat) (j : Nat) :
    (shiftStepAsc g b j).length = b.length := List.length_set b j _

theorem shiftStepDesc_length (g : Nat → Nat → Nat → Nat) (b : List Nat) (j : Nat) :
    (shiftStepDesc g b j).length = b.length := List.length_set b j _

/-- The ascending in-place loop `for (i = 0; i < n; i++) b[i] = g(i, b[i], b[i+1])`
computes a pure map over the ORIGINAL buffer: index `i` is written before
`i + 1` is read, so every read of `b[i+1]` still sees the original byte. -/
theorem foldl_shiftStepAsc_getD (g : Nat → Nat → Nat → Nat) :
    ∀ (n : Nat) (buf : List Nat), n ≤ buf.length → ∀ i,
      ((List.range n).foldl (shiftStepAsc g) buf).getD i 0 =
        if i < n then g i (buf.getD i 0) (buf.getD (i + 1) 0) else buf.getD i 0 := by
  intro n
  induction n with
  | zero => intro buf h i; simp
  | succ m ih =>
      intro buf h i
      rw [List.range_succ, List.foldl_append, List.foldl_cons, List.foldl_nil]
      have hFlen : ((List.range m).foldl (shiftStepAsc g) buf).length = buf.length :=
        foldl_length_inv _ (shiftStepAsc_length g) _ _
      have hFm : ((List.range m).foldl (shiftStepAsc g) buf).getD m 0 =
          buf.getD m 0 := by
        rw [ih buf (by omega) m, if_neg (by omega)]
      have hFm1 : ((List.range m).foldl (shiftStepAsc g) buf).getD (m + 1) 0 =
          buf.getD (m + 1) 0 := by
        rw [ih buf (by omega) (m + 1), if_neg (by omega)]
      simp only [shiftStepAsc]
      by_cases hi : i = m
      · subst hi
        rw [getD_set_self _ _ _ (by omega), hFm, hFm1, if_pos (by omega)]
      · rw [getD_set_other _ _ _ _ hi, ih buf (by omega) i]
        by_cases h2 : i < m
        · rw [if_pos h2, if_pos (by omega)]
        · rw [if_neg h2, if_neg (by omega)]

/-- The descending in-place loop `for (i = n-1; i >= 0; i--) b[i] = g(i, b[i], b[i-1])`
computes a pure map over the ORIGINAL buffer: index `i` is written after
every index above it, and reads `b[i-1]`, which is only written later. -/
theorem foldl_shiftStepDesc_getD (g : Nat → Nat → Nat → Nat) :
    ∀ (n : Nat) (buf : List Nat), n ≤ buf.length → ∀ i,
      (((List.range n).reverse).foldl (shiftStepDesc g) buf).getD i 0 =
        if i < n then g i (buf.getD i 0) (buf.getD (i - 1) 0) else buf.getD i 0 := by
  intro n
  induction n with
  | zero => intro buf h i; simp
  | succ m ih =>
      intro buf h i
      have e : (List.range (m + 1)).reverse = m :: (List.range m).reverse := by
        rw [List.range_succ, List.reverse_append]
        rfl
      rw [e, List.foldl_cons]
      have hlen1 : (shiftStepDesc g buf m).length = buf.length :=
        shiftStepDesc_length g buf m
      rw [ih (shiftStepDesc g buf m) (by omega) i]
      simp only [shiftStepDesc]
      by_cases h2 : i < m
      · rw [if_pos h2, if_pos (by omega), getD_set_other _ _ _ _ (by omega),
          getD_set_other _ _ _ _ (by omega)]
      · by_cases hi : i = m
        · subst hi
          rw [if_neg (by omega), if_pos (by omega), getD_set_self _ _ _ (by omega)]
        · rw [if_neg (by omega), if_neg (by omega), getD_set_other _ _ _ _ hi]

/-- C9: the fast-path byte shifts of `DMD419::stepMarquee` (`dx = ±1`,
`dy = 0`) shift every byte of the buffer one bit in the scroll
direction, where a byte NOT at a logical row boundary takes its incoming
carry bit from the adjacent byte of the same logical row (the original
value — the in-place loop order never smears), while the byte at a row
boundary (every `DisplaysWide*4`-th byte) takes a constant fill bit
instead, so no pixel bit crosses into the next logical row. -/
theorem C9_shift_row_boundaries (dw dt : Nat) (buf : List Nat) (i : Nat)
    (hlen : buf.length = 64 * dt) (hi : i < 64 * dt) :
    (shiftScreenLeft dw dt buf).getD i 0 =
      (if i % (dw * 4) = dw * 4 - 1 then (buf.getD i 0 * 2 + 1) % 256
       else (buf.getD i 0 * 2 + (buf.getD (i + 1) 0 &&& 128) >>> 7) % 256) ∧
    (shiftScreenRight dw dt buf).getD i 0 =
      (if i % (dw * 4) = 0 then buf.getD i 0 >>> 1 + 128
       else buf.getD i 0 >>> 1 + (buf.getD (i - 1) 0 &&& 1) <<< 7) := by
  constructor
  · have e : shiftScreenLeft dw dt buf =
        (List.range (64 * dt)).foldl
          (shiftStepAsc (fun j cur nxt =>
            if j % (dw * 4) = dw * 4 - 1 then (cur * 2 + 1) % 256
            else (cur * 2 + (nxt &&& 128) >>> 7) % 256)) buf := rfl
    rw [e, foldl_shiftStepAsc_getD _ (64 * dt) buf (by omega) i, if_pos hi]
  · have e : shiftScreenRight dw dt buf =
        ((List.range (64 * dt)).reverse).foldl
          (shiftStepDesc (fun j cur prev =>
            if j % (dw * 4) = 0 then cur >>> 1 + 128
            else cur >>> 1 + (prev &&& 1) <<< 7)) buf := rfl
    rw [e, foldl_shiftStepDesc_getD _ (64 * dt) buf (by omega) i, if_pos hi]

/-- A concrete buffer for the C9 witness: byte 0 is 0x01, byte 1 is
0x80, the rest of the 64 bytes are 0. -/
def c9_buf : List Nat := ((List.replicate 64 0).set 0 1).set 1 128

/-- C9, witness: on a one-panel display, shifting `c9_buf` left makes
byte 0 receive byte 1's MSB as carry (1*2 + 1 = 3) while the
row-boundary byte 3 receives the constant fill (0*2 + 1 = 1); shifting
right makes byte 0 (a row start) receive the constant 0x80 fill and
byte 1 receive byte 0's LSB as carry (0x40 + 0x80 = 0xC0). -/
theorem C9_witness :
    (shiftScreenLeft 1 1 c9_buf).getD 0 0 = 3 ∧
    (shiftScreenLeft 1 1 c9_buf).getD 3 0 = 1 ∧
    (shiftScreenRight 1 1 c9_buf).getD 0 0 = 128 ∧
    (shiftScreenRight 1 1 c9_buf).getD 1 0 = 192 := by
  have h0 := C9_shift_row_boundaries 1 1 c9_buf 0 (by decide) (by decide)
  have h1 := C9_shift_row_boundaries 1 1 c9_buf 1 (by decide) (by decide)
  have h3 := C9_shift_row_boundaries 1 1 c9_buf 3 (by decide) (by decide)
  exact ⟨h0.1.trans (by decide), h3.1.trans (by decide),
    h0.2.trans (by decide), h1.2.trans (by decide)⟩

/-! ## C8 — marquee wrap at the left edge -/

/-- `writePixel` is a no-op when the column is at or beyond the right
edge. -/
theorem writePixel_oob (d : State) (x y : Int) (mode : Nat) (p : Bool)
    (h : (32 * d.DisplaysWide : Int) ≤ x) : writePixel d x y mode p = d := by
  unfold writePixel
  rw [if_pos (Or.inr (Or.inl h))]

/-- `writePixel` only touches the screen RAM. -/
theorem writePixel_mOX (d : State) (x y : Int) (mode : Nat) (p : Bool) :
    (writePixel d x y mode p).marqueeOffsetX = d.marqueeOffsetX := by
  simp only [writePixel]
  split
  · rfl
  · split <;> first | rfl | (split_ifs <;> rfl)

theorem bresLoopX_mOX (mode : Nat) (sx sy dx dy : Int) :
    ∀ (n : Nat) (d : State) (x1 y1 fr : Int),
      (bresLoopX mode sx sy dx dy n d x1 y1 fr).marqueeOffsetX =
        d.marqueeOffsetX := by
  intro n
  induction n with
  | zero => intro d x1 y1 fr; rfl
  | succ m ih =>
      intro d x1 y1 fr
      simp only [bresLoopX]
      rw [ih, writePixel_mOX]

theorem bresLoopY_mOX (mode : Nat) (sx sy dx dy : Int) :
    ∀ (n : Nat) (d : State) (x1 y1 fr : Int),
      (bresLoopY mode sx sy dx dy n d x1 y1 fr).marqueeOffsetX =
        d.marqueeOffsetX := by
  intro n
  induction n with
  | zero => intro d x1 y1 fr; rfl
  | succ m ih =>
      intro d x1 y1 fr
      simp only [bresLoopY]
      rw [ih, writePixel_mOX]

theorem drawLine_mOX (d : State) (x1 y1 x2 y2 : Int) (mode : Nat) :
    (drawLine d x1 y1 x2 y2 mode).marqueeOffsetX = d.marqueeOffsetX := by
  simp only [drawLine]
  split_ifs <;>
    first
      | rw [bresLoopX_mOX, writePixel_mOX]
      | rw [bresLoopY_mOX, writePixel_mOX]

theorem drawFilledBox_mOX (d : State) (x1 y1 x2 y2 : Int) (mode : Nat) :
    (drawFilledBox d x1 y1 x2 y2 mode).marqueeOffsetX = d.marqueeOffsetX := by
  unfold drawFilledBox
  refine foldl_preserves (fun s => s.marqueeOffsetX = d.marqueeOffsetX) _ ?_ _ d rfl
  intro b a hb
  rw [drawLine_mOX, hb]

theorem drawChar_mOX (d : State) (bX bY : Int) (letter mode : Nat) :
    ((drawChar d bX bY letter mode).1).marqueeOffsetX = d.marqueeOffsetX := by
  simp only [drawChar]
  split_ifs <;>
    first
      | rfl
      | exact drawFilledBox_mOX d bX bY _ _ 1
      | (refine foldl_preserves (fun s => s.marqueeOffsetX = d.marqueeOffsetX)
           _ ?_ _ d rfl
         intro b a hb
         refine foldl_preserves (fun s => s.marqueeOffsetX = d.marqueeOffsetX)
           _ ?_ _ b hb
         intro b2 a2 hb2
         try simp only []
         refine foldl_preserves (fun s => s.marqueeOffsetX = d.marqueeOffsetX)
           _ ?_ _ b2 hb2
         intro b3 a3 hb3
         try simp only []
         split_ifs <;> first | rw [writePixel_mOX, hb3] | exact hb3)

theorem marqueeRedrawLeft_mOX (oy : Int) :
    ∀ (l : List Nat) (sw : Int) (d : State),
      (marqueeRedrawLeft oy l sw d).marqueeOffsetX = d.marqueeOffsetX := by
  intro l
  induction l with
  | nil => intro sw d; rfl
  | cons ch rest ih =>
      intro sw d
      simp only [marqueeRedrawLeft]
      split
      · exact drawChar_mOX d sw oy ch 0
      · exact ih _ d

/-- The vertical-line arm of Bresenham (`dx = 0`) with a negative
fraction never moves the column, so an off-screen column stays a
no-op for the whole loop. -/
theorem bresLoopY_oob (mode : Nat) (sx sy dy : Int) :
    ∀ (n : Nat) (d : State) (x1 y1 fr : Int),
      (32 * d.DisplaysWide : Int) ≤ x1 → fr < 0 →
      bresLoopY mode sx sy 0 dy n d x1 y1 fr = d := by
  intro n
  induction n with
  | zero => intro d x1 y1 fr h hf; rfl
  | succ m ih =>
      intro d x1 y1 fr h hf
      simp only [bresLoopY]
      rw [if_neg (by omega), if_neg (by omega)]
      rw [writePixel_oob d x1 _ mode true h]
      exact ih d x1 (y1 + sy) (fr + 0) h (by omega)

/-- A vertical `drawLine` at an off-screen column is a no-op. -/
theorem drawLine_vert_oob (d : State) (x y1 y2 : Int) (mode : Nat)
    (h : (32 * d.DisplaysWide : Int) ≤ x) :
    drawLine d x y1 x y2 mode = d := by
  simp only [drawLine, sub_self]
  rw [writePixel_oob d x y1 mode true h, if_neg (lt_irrefl (0 : Int)), mul_zero]
  rw [if_neg (show ¬((2 * if y2 - y1 < 0 then -(y2 - y1) else y2 - y1) < (0 : Int))
    by split_ifs <;> omega)]
  rw [zero_sub, Int.mul_ediv_cancel_left _ (two_ne_zero)]
  rcases Nat.eq_zero_or_pos (y2 - y1).natAbs with h0 | hpos
  · rw [h0]
    rfl
  · refine bresLoopY_oob mode _ _ _ _ d x y1 _ h ?_
    have hne : y2 - y1 ≠ 0 := Int.natAbs_pos.mp hpos
    split_ifs <;> omega

/-- `drawFilledBox` whose left column is off screen is a no-op. -/
theorem drawFilledBox_oob (d : State) (x1 y1 x2 y2 : Int) (mode : Nat)
    (h : (32 * d.DisplaysWide : Int) ≤ x1) :
    drawFilledBox d x1 y1 x2 y2 mode = d := by
  unfold drawFilledBox
  refine foldl_preserves (fun s => s = d) _ ?_ _ d rfl
  intro b a hb
  rw [hb]
  exact drawLine_vert_oob d (x1 + a) y1 y2 mode (by omega)

/-- `drawChar` anchored at or beyond the right edge never changes the
screen: every write lands at a column ≥ the anchor. -/
theorem drawChar_oob (d : State) (bX bY : Int) (letter mode : Nat)
    (h : (32 * d.DisplaysWide : Int) ≤ bX) :
    (drawChar d bX bY letter mode).1 = d := by
  simp only [drawChar]
  split_ifs <;>
    first
      | rfl
      | exact drawFilledBox_oob d bX bY _ _ 1 h
      | (refine foldl_preserves (fun s => s = d) _ ?_ _ d rfl
         intro b a hb
         refine foldl_preserves (fun s => s = d) _ ?_ _ b hb
         intro b2 a2 hb2
         try simp only []
         refine foldl_preserves (fun s => s = d) _ ?_ _ b2 hb2
         intro b3 a3 hb3
         try simp only []
         split_ifs <;>
           first
             | (rw [hb3]; exact writePixel_oob d _ _ mode _ (by omega))
             | exact hb3)

/-- The post-shift redraw starting at or beyond the right edge draws
its character entirely off screen, leaving the state unchanged. -/
theorem marqueeRedrawLeft_oob (oy : Int) (l : List Nat) (d : State) (sw : Int)
    (h : (32 * d.DisplaysWide : Int) ≤ sw) :
    marqueeRedrawLeft oy l sw d = d := by
  cases l with
  | nil => rfl
  | cons ch rest =>
      simp only [marqueeRedrawLeft]
      rw [if_pos (by omega : (32 * d.DisplaysWide : Int) ≤ sw + (charWidth d ch : Nat))]
      exact drawChar_oob d sw oy ch 0 h

/-- The left shift maps an all-0xFF (all pixels off) buffer to itself.
`dt` is the panel count `dw * dh`, which makes the final byte of the
buffer a row-boundary byte. -/
theorem shiftScreenLeft_all255 (dw dh : Nat) (hdw : 1 ≤ dw) (dt : Nat)
    (hdt : dt = dw * dh) :
    shiftScreenLeft dw dt (List.replicate (64 * dt) 255) =
      List.replicate (64 * dt) 255 := by
  have e : shiftScreenLeft dw dt (List.replicate (64 * dt) 255) =
      (List.range (64 * dt)).foldl
        (shiftStepAsc (fun j cur nxt =>
          if j % (dw * 4) = dw * 4 - 1 then (cur * 2 + 1) % 256
          else (cur * 2 + (nxt &&& 128) >>> 7) % 256))
        (List.replicate (64 * dt) 255) := rfl
  have hlen : (shiftScreenLeft dw dt (List.replicate (64 * dt) 255)).length =
      64 * dt := by
    rw [e, foldl_length_inv _ (shiftStepAsc_length _), List.length_replicate]
  refine List.ext_getElem (by rw [hlen, List.length_replicate]) ?_
  intro i h1 h2
  have hg := foldl_shiftStepAsc_getD
    (fun j cur nxt =>
      if j % (dw * 4) = dw * 4 - 1 then (cur * 2 + 1) % 256
      else (cur * 2 + (nxt &&& 128) >>> 7) % 256)
    (64 * dt) (List.replicate (64 * dt) 255) (by simp) i
  have hi : i < 64 * dt := by omega
  rw [← List.getD_eq_getElem _ 0 h1, ← List.getD_eq_getElem _ 0 h2, e, hg,
    if_pos hi]
  have hrep : (List.replicate (64 * dt) 255).getD i 0 = 255 := by
    rw [List.getD_eq_getElem _ 0 (by simpa using hi), List.getElem_replicate]
  split_ifs with hb
  · rw [hrep]
  · have hi1 : i + 1 < 64 * dt := by
      rcases Nat.lt_or_ge (i + 1) (64 * dt) with hlt | hge
      · exact hlt
      · exfalso
        apply hb
        have hkey : 64 * dt = dw * 4 * (16 * dh) := by rw [hdt]; ring
        have hieq : i = dw * 4 * (16 * dh) - 1 := by omega
        have hdh : 1 ≤ dh := by
          by_contra hcon
          have h0 : dh = 0 := by omega
          rw [h0, Nat.mul_zero] at hdt
          omega
        have hsplit : dw * 4 * (16 * dh - 1) + dw * 4 = dw * 4 * (16 * dh) := by
          have : 16 * dh - 1 + 1 = 16 * dh := by omega
          calc dw * 4 * (16 * dh - 1) + dw * 4 = dw * 4 * (16 * dh - 1 + 1) := by ring
            _ = dw * 4 * (16 * dh) := by rw [this]
        have hieq2 : i = dw * 4 - 1 + dw * 4 * (16 * dh - 1) := by omega
        rw [hieq2, Nat.add_mul_mod_self_left, Nat.mod_eq_of_lt (by omega)]
    have hrep1 : (List.replicate (64 * dt) 255).getD (i + 1) 0 = 255 := by
      rw [List.getD_eq_getElem _ 0 (by simpa using hi1), List.getElem_replicate]
    rw [hrep, hrep1]
    decide

/-- C8: stepping a left-scrolling marquee by `dx = -1`.  While the
decremented offset is still ≥ `-marqueeWidth` (and ≤ the display width,
with the vertical offset inside its own bounds), the step decrements
`marqueeOffsetX` by exactly one and reports no wrap; on the first step
that makes the offset < `-marqueeWidth`, the offset is reset to the
display width `32 * DisplaysWide`, the frame buffer is cleared (all
bytes 0xFF = all pixels off in DMD419 polarity, surviving the fast-path
shift and the off-screen redraw), and the call returns `true`. -/
theorem C8_marquee_left_wrap (d : State) (hWF : d.WF) :
    (d.marqueeOffsetX - 1 < -d.marqueeWidth →
     -d.marqueeHeight ≤ d.marqueeOffsetY →
     d.marqueeOffsetY ≤ 16 * d.DisplaysHigh →
     (stepMarquee d (-1) 0).2 = true ∧
     (stepMarquee d (-1) 0).1.marqueeOffsetX = 32 * d.DisplaysWide ∧
     (stepMarquee d (-1) 0).1.bDMD419ScreenRAM =
       List.replicate (64 * d.DisplaysTotal) 255) ∧
    (-d.marqueeWidth ≤ d.marqueeOffsetX - 1 →
     d.marqueeOffsetX - 1 ≤ 32 * d.DisplaysWide →
     -d.marqueeHeight ≤ d.marqueeOffsetY →
     d.marqueeOffsetY ≤ 16 * d.DisplaysHigh →
     (stepMarquee d (-1) 0).2 = false ∧
     (stepMarquee d (-1) 0).1.marqueeOffsetX = d.marqueeOffsetX - 1) := by
  obtain ⟨hdw, hdw2, hdh, hdh2, hdt, hlen, hbytes⟩ := hWF
  constructor
  · intro h1 h2 h3
    have key : stepMarquee d (-1) 0 =
        (clearScreen { d with marqueeOffsetX := (32 * d.DisplaysWide : Int),
                              marqueeOffsetY := d.marqueeOffsetY + 0 } true,
          true) := by
      simp only [stepMarquee, marqueeStepX, if_true, and_self]
      rw [if_pos (show d.marqueeOffsetX + -1 < -d.marqueeWidth by omega)]
      simp only [marqueeStepY, clearScreen, if_true, and_self]
      rw [if_neg (show ¬(d.marqueeOffsetY + 0 < -d.marqueeHeight) by omega)]
      rw [if_neg (show ¬((16 * d.DisplaysHigh : Int) < d.marqueeOffsetY + 0) by omega)]
      try simp only []
      rw [show shiftScreenLeft d.DisplaysWide d.DisplaysTotal
          (List.replicate (64 * d.DisplaysTotal) 255) =
          List.replicate (64 * d.DisplaysTotal) 255 from
        shiftScreenLeft_all255 d.DisplaysWide d.DisplaysHigh hdw d.DisplaysTotal hdt]
      exact congrArg (fun s => (s, true))
        (marqueeRedrawLeft_oob _ _ _ _ (le_of_eq rfl))
    refine ⟨by rw [key], by rw [key]; rfl, by rw [key]; rfl⟩
  · intro h1 h2 h3 h4
    have key : stepMarquee d (-1) 0 =
        (marqueeRedrawLeft (d.marqueeOffsetY + 0)
          (d.marqueeText.take d.marqueeLength) (d.marqueeOffsetX + -1)
          { d with marqueeOffsetX := d.marqueeOffsetX + -1,
                   marqueeOffsetY := d.marqueeOffsetY + 0,
                   bDMD419ScreenRAM :=
                     shiftScreenLeft d.DisplaysWide d.DisplaysTotal
                       d.bDMD419ScreenRAM },
          false) := by
      simp only [stepMarquee, marqueeStepX, marqueeStepY, if_true, and_self]
      rw [if_neg (show ¬(d.marqueeOffsetX + -1 < -d.marqueeWidth) by omega)]
      rw [if_neg (show ¬((32 * d.DisplaysWide : Int) < d.marqueeOffsetX + -1) by omega)]
      try simp only []
      rw [if_neg (show ¬(d.marqueeOffsetY + 0 < -d.marqueeHeight) by omega)]
      rw [if_neg (show ¬((16 * d.DisplaysHigh : Int) < d.marqueeOffsetY + 0) by omega)]
      try simp only []
    refine ⟨by rw [key], ?_⟩
    rw [key]
    show (marqueeRedrawLeft _ _ _ _).marqueeOffsetX = d.marqueeOffsetX - 1
    rw [marqueeRedrawLeft_mOX]
    show d.marqueeOffsetX + -1 = d.marqueeOffsetX - 1
    omega

/-- A concrete left-scrolling marquee state about to wrap: text width
10, offset −10, one 32×16 panel with a cleared (all-off) screen. -/
def dmdWrap : State :=
  { DisplaysWide := 1, DisplaysHigh := 1, DisplaysTotal := 1,
    bDMD419ScreenRAM := List.replicate 64 0, Font := [],
    marqueeText := [], marqueeLength := 0, marqueeWidth := 10,
    marqueeHeight := 7, marqueeOffsetX := -10, marqueeOffsetY := 0 }

/-- The same marquee with the offset still at 0 (no wrap yet). -/
def dmdStep : State :=
  { DisplaysWide := 1, DisplaysHigh := 1, DisplaysTotal := 1,
    bDMD419ScreenRAM := List.replicate 64 0, Font := [],
    marqueeText := [], marqueeLength := 0, marqueeWidth := 10,
    marqueeHeight := 7, marqueeOffsetX := 0, marqueeOffsetY := 0 }

theorem dmdWrap_WF : dmdWrap.WF := by
  refine ⟨by decide, by decide, by decide, by decide, by decide,
    by simp [dmdWrap], ?_⟩
  intro b hb
  have := List.eq_of_mem_replicate hb
  omega

theorem dmdStep_WF : dmdStep.WF := by
  refine ⟨by decide, by decide, by decide, by decide, by decide,
    by simp [dmdStep], ?_⟩
  intro b hb
  have := List.eq_of_mem_replicate hb
  omega

/-- C8, witness: stepping `dmdWrap` left wraps (offset resets to the
display width 32 and the screen clears to all-0xFF), while stepping
`dmdStep` left just decrements the offset to −1 without wrapping. -/
theorem C8_witness :
    ((stepMarquee dmdWrap (-1) 0).2 = true ∧
     (stepMarquee dmdWrap (-1) 0).1.marqueeOffsetX = 32 ∧
     (stepMarquee dmdWrap (-1) 0).1.bDMD419ScreenRAM = List.replicate 64 255) ∧
    ((stepMarquee dmdStep (-1) 0).2 = false ∧
     (stepMarquee dmdStep (-1) 0).1.marqueeOffsetX = -1) := by
  have hw := (C8_marquee_left_wrap dmdWrap dmdWrap_WF).1
    (by decide) (by decide) (by decide)
  have hs := (C8_marquee_left_wrap dmdStep dmdStep_WF).2
    (by decide) (by decide) (by decide) (by decide)
  exact ⟨⟨hw.1, hw.2.1.trans (by decide), hw.2.2.trans (by decide)⟩,
    ⟨hs.1, hs.2.trans (by decide)⟩⟩

end DMD419




